import Mathlib

/-!
Verification of the budget forecaster (`forecast.py`).

The development shallowly embeds the program: calendar dates model Python's
`datetime.date`, the recurrence steps model `dateutil.relativedelta` with its
end-of-month clamping, monetary values are exact integers (cents), and the mutating
`Ledger` class becomes explicit state passing.  Fatal `exit_application`
calls are modelled as `Except.error` carrying the printed message (the
process exits with status code 1 on that path).
-/

namespace Forecast

/-- A calendar date, as in Python's `datetime.date` (year, month, day). -/
structure Date where
  year : Nat
  month : Nat
  day : Nat
deriving DecidableEq, Repr

/-- Gregorian leap-year rule, as used by `datetime`/`calendar`. -/
def isLeap (y : Nat) : Bool :=
  (y % 4 == 0 && y % 100 != 0) || (y % 400 == 0)

/-- Number of days in a month, as in `calendar.monthrange(y, m)[1]`. -/
def daysInMonth (y m : Nat) : Nat :=
  if m = 2 then (if isLeap y then 29 else 28)
  else if m = 4 || m = 6 || m = 9 || m = 11 then 30
  else 31

/-- A structurally well-formed calendar date (every Python `datetime.date`
value satisfies this; the Python type cannot represent anything else). -/
def Date.Valid (d : Date) : Prop :=
  1 ≤ d.month ∧ d.month ≤ 12 ∧ 1 ≤ d.day ∧ d.day ≤ daysInMonth d.year d.month

instance (d : Date) : Decidable d.Valid := by
  unfold Date.Valid; infer_instance

/-- Python's `date` comparison: lexicographic on (year, month, day). -/
def Date.blt (a b : Date) : Bool :=
  if a.year = b.year then
    (if a.month = b.month then decide (a.day < b.day) else decide (a.month < b.month))
  else decide (a.year < b.year)

/-- `a <= b` on dates, Python style. -/
def Date.ble (a b : Date) : Bool := !Date.blt b a

/-- A strictly monotone linearisation of valid dates used for termination
measures: months fit in 13, days in 32. -/
def dval (d : Date) : Nat := (d.year * 13 + d.month) * 32 + d.day

theorem daysInMonth_le (y m : Nat) : daysInMonth y m ≤ 31 := by
  unfold daysInMonth; split_ifs <;> omega

theorem daysInMonth_pos (y m : Nat) : 1 ≤ daysInMonth y m := by
  unfold daysInMonth; split_ifs <;> omega

/-- `Date.blt` as a lexicographic proposition. -/
theorem blt_eq_lex (a b : Date) :
    Date.blt a b = true ↔
      (a.year < b.year ∨ (a.year = b.year ∧
        (a.month < b.month ∨ (a.month = b.month ∧ a.day < b.day)))) := by
  unfold Date.blt
  split_ifs with h1 h2 <;> simp_all

/-- `Date.ble` as a lexicographic proposition. -/
theorem ble_eq_lex (a b : Date) :
    Date.ble a b = true ↔
      ¬ (b.year < a.year ∨ (b.year = a.year ∧
        (b.month < a.month ∨ (b.month = a.month ∧ b.day < a.day)))) := by
  unfold Date.ble
  rw [Bool.not_eq_true', ← Bool.not_eq_true, not_iff_not, blt_eq_lex]

theorem blt_irrefl (a : Date) : Date.blt a a = false := by
  rw [← Bool.not_eq_true, blt_eq_lex]; omega

theorem ble_refl (a : Date) : Date.ble a a = true := by
  rw [ble_eq_lex]; omega

/-- Under validity, the strict date order coincides with the `dval` order. -/
theorem blt_iff_dval (a b : Date) (ha : a.Valid) (hb : b.Valid) :
    Date.blt a b = true ↔ dval a < dval b := by
  obtain ⟨ha1, ha2, ha3, ha4⟩ := ha
  obtain ⟨hb1, hb2, hb3, hb4⟩ := hb
  have ha5 : a.day ≤ 31 := ha4.trans (daysInMonth_le ..)
  have hb5 : b.day ≤ 31 := hb4.trans (daysInMonth_le ..)
  rw [blt_eq_lex]; unfold dval
  constructor <;> intro h <;> omega

/-- Under validity, the weak date order coincides with the `dval` order. -/
theorem ble_iff_dval (a b : Date) (ha : a.Valid) (hb : b.Valid) :
    Date.ble a b = true ↔ dval a ≤ dval b := by
  unfold Date.ble
  rw [Bool.not_eq_true', ← Bool.not_eq_true, blt_iff_dval b a hb ha]
  omega

/-- `dval` is injective on valid dates. -/
theorem dval_inj (a b : Date) (ha : a.Valid) (hb : b.Valid)
    (h : dval a = dval b) : a = b := by
  obtain ⟨ha1, ha2, ha3, ha4⟩ := ha
  obtain ⟨hb1, hb2, hb3, hb4⟩ := hb
  have ha5 : a.day ≤ 31 := ha4.trans (daysInMonth_le ..)
  have hb5 : b.day ≤ 31 := hb4.trans (daysInMonth_le ..)
  unfold dval at h
  cases a; cases b
  simp only [Date.mk.injEq]
  simp only at *
  omega

/-- The next calendar day, i.e. `d + datetime.timedelta(days=1)`. -/
def Date.nextDay (d : Date) : Date :=
  if d.day < daysInMonth d.year d.month then ⟨d.year, d.month, d.day + 1⟩
  else if d.month < 12 then ⟨d.year, d.month + 1, 1⟩
  else ⟨d.year + 1, 1, 1⟩

/-- `d + relativedelta(days=n)` (equivalently `d + timedelta(days=n)`). -/
def Date.addDays (d : Date) (n : Nat) : Date := Date.nextDay^[n] d

/-- `d + relativedelta(months=n)`: month arithmetic with year carry and the
day clamped to the length of the target month, as `dateutil` does. -/
def Date.addMonths (d : Date) (n : Nat) : Date :=
  ⟨d.year + (d.month - 1 + n) / 12,
   (d.month - 1 + n) % 12 + 1,
   min d.day (daysInMonth (d.year + (d.month - 1 + n) / 12) ((d.month - 1 + n) % 12 + 1))⟩

/-- `d + relativedelta(years=n)`: the year advances and the day is clamped
(Feb 29 → Feb 28 on non-leap targets), as `dateutil` does. -/
def Date.addYears (d : Date) (n : Nat) : Date :=
  ⟨d.year + n, d.month, min d.day (daysInMonth (d.year + n) d.month)⟩

theorem nextDay_valid (d : Date) (h : d.Valid) : d.nextDay.Valid := by
  obtain ⟨h1, h2, h3, h4⟩ := h
  unfold Date.nextDay Date.Valid
  split_ifs with ha hb <;> simp only
  · exact ⟨h1, h2, by omega, by omega⟩
  · exact ⟨by omega, by omega, le_refl 1, daysInMonth_pos ..⟩
  · exact ⟨le_refl 1, by omega, le_refl 1, daysInMonth_pos ..⟩

theorem dval_nextDay (d : Date) (h : d.Valid) : dval d < dval d.nextDay := by
  obtain ⟨h1, h2, h3, h4⟩ := h
  have h5 : d.day ≤ 31 := h4.trans (daysInMonth_le ..)
  unfold Date.nextDay
  split_ifs with ha hb <;> unfold dval <;> simp only <;> omega

theorem addMonths_valid (d : Date) (n : Nat) (h : d.Valid) :
    (d.addMonths n).Valid := by
  obtain ⟨h1, h2, h3, h4⟩ := h
  have hp := daysInMonth_pos (d.year + (d.month - 1 + n) / 12) ((d.month - 1 + n) % 12 + 1)
  unfold Date.addMonths Date.Valid
  dsimp only
  omega

theorem dval_addMonths (d : Date) (n : Nat) (hn : 1 ≤ n) (h : d.Valid) :
    dval d < dval (d.addMonths n) := by
  obtain ⟨h1, h2, h3, h4⟩ := h
  have h5 : d.day ≤ 31 := h4.trans (daysInMonth_le ..)
  unfold Date.addMonths dval
  dsimp only
  omega

theorem addYears_valid (d : Date) (n : Nat) (h : d.Valid) :
    (d.addYears n).Valid := by
  obtain ⟨h1, h2, h3, h4⟩ := h
  have hp := daysInMonth_pos (d.year + n) d.month
  unfold Date.addYears Date.Valid
  dsimp only
  omega

theorem dval_addYears (d : Date) (n : Nat) (hn : 1 ≤ n) (h : d.Valid) :
    dval d < dval (d.addYears n) := by
  obtain ⟨h1, h2, h3, h4⟩ := h
  have h5 : d.day ≤ 31 := h4.trans (daysInMonth_le ..)
  unfold Date.addYears dval
  dsimp only
  omega

theorem addDays_valid (d : Date) (n : Nat) (h : d.Valid) :
    (d.addDays n).Valid := by
  induction n with
  | zero => exact h
  | succ n ih =>
      unfold Date.addDays at *
      rw [Function.iterate_succ_apply']
      exact nextDay_valid _ ih

theorem dval_addDays (d : Date) (n : Nat) (hn : 1 ≤ n) (h : d.Valid) :
    dval d < dval (d.addDays n) := by
  induction n with
  | zero => omega
  | succ n ih =>
      unfold Date.addDays at *
      rw [Function.iterate_succ_apply']
      rcases Nat.eq_zero_or_pos n with h0 | h0
      · subst h0; simpa using dval_nextDay d h
      · exact (ih h0).trans (dval_nextDay _ (addDays_valid d n h))

/-- `Date.nextDay` is the immediate successor among valid dates: nothing
valid lies strictly between a date and its next day. -/
theorem nextDay_min (c d : Date) (hc : c.Valid) (hd : d.Valid)
    (h : Date.blt c d = true) : Date.ble c.nextDay d = true := by
  obtain ⟨hc1, hc2, hc3, hc4⟩ := hc
  obtain ⟨hd1, hd2, hd3, hd4⟩ := hd
  rw [blt_eq_lex] at h
  rw [ble_eq_lex]
  unfold Date.nextDay
  split_ifs with h1 h2 <;> simp only
  · omega
  · rcases h with hy | ⟨hy, hm | ⟨hm, hday⟩⟩
    · omega
    · omega
    · rw [← hy, ← hm] at hd4
      omega
  · rcases h with hy | ⟨hy, hm | ⟨hm, hday⟩⟩
    · omega
    · omega
    · rw [← hy, ← hm] at hd4
      omega

/-! ## Recurrence frequencies (`RecurringTransaction.frequency` setter) -/

/-- The seven admissible frequency categories. -/
inductive Freq where
  | daily | weekly | biweekly | monthly | quarterly | semiyearly | yearly
deriving DecidableEq, Repr

/-- The calendar step each category denotes, exactly the `relativedelta`
stored by the `frequency` setter: daily → days=1, weekly → weeks=1,
biweekly → weeks=2, monthly → months=1, quarterly → months=3,
semiyearly → months=6, yearly → years=1. -/
def Freq.step : Freq → Date → Date
  | .daily, d => d.addDays 1
  | .weekly, d => d.addDays 7
  | .biweekly, d => d.addDays 14
  | .monthly, d => d.addMonths 1
  | .quarterly, d => d.addMonths 3
  | .semiyearly, d => d.addMonths 6
  | .yearly, d => d.addYears 1

/-- `valid_freq` from the `frequency` setter. -/
def valid_freq : List String :=
  ["daily", "weekly", "biweekly", "monthly", "quarterly", "semiyearly", "yearly"]

/-- The `frequency` setter: an unknown category is fatal, naming the owning
transaction; otherwise the category resolves to its fixed step. -/
def parseFrequency (name value : String) : Except String Freq :=
  if value ∉ valid_freq then .error ("Invalid frequency for " ++ name ++ ".")
  else if value = "daily" then .ok .daily
  else if value = "weekly" then .ok .weekly
  else if value = "biweekly" then .ok .biweekly
  else if value = "monthly" then .ok .monthly
  else if value = "quarterly" then .ok .quarterly
  else if value = "semiyearly" then .ok .semiyearly
  else .ok .yearly

theorem step_valid (f : Freq) (d : Date) (h : d.Valid) : (f.step d).Valid := by
  cases f with
  | daily => exact addDays_valid d 1 h
  | weekly => exact addDays_valid d 7 h
  | biweekly => exact addDays_valid d 14 h
  | monthly => exact addMonths_valid d 1 h
  | quarterly => exact addMonths_valid d 3 h
  | semiyearly => exact addMonths_valid d 6 h
  | yearly => exact addYears_valid d 1 h

theorem dval_step (f : Freq) (d : Date) (h : d.Valid) :
    dval d < dval (f.step d) := by
  cases f with
  | daily => exact dval_addDays d 1 (by omega) h
  | weekly => exact dval_addDays d 7 (by omega) h
  | biweekly => exact dval_addDays d 14 (by omega) h
  | monthly => exact dval_addMonths d 1 (by omega) h
  | quarterly => exact dval_addMonths d 3 (by omega) h
  | semiyearly => exact dval_addMonths d 6 (by omega) h
  | yearly => exact dval_addYears d 1 (by omega) h

/-! ## The `next_date` setter's roll-forward loop -/

/-- Fuel-indexed unfolding of the setter's `while today > date: date += step`
loop.  Each iteration strictly increases `dval`, so `dval today + 1` fuel is
always enough for the loop to reach its exit condition. -/
def rollForwardFuel (today : Date) (step : Date → Date) : Nat → Date → Date
  | 0, d => d
  | n + 1, d => if Date.blt d today then rollForwardFuel today step n (step d) else d

/-- The `next_date` setter on a freshly parsed date: while the date is
strictly before today, add the recurrence step. -/
def resolveNextDate (today : Date) (step : Date → Date) (d : Date) : Date :=
  rollForwardFuel today step (dval today + 1) d

theorem rollForwardFuel_spec (today : Date) (f : Freq) (ht : today.Valid) :
    ∀ (n : Nat) (d : Date), d.Valid →
      (rollForwardFuel today f.step n d).Valid ∧
      (dval today ≤ dval d + n →
        Date.ble today (rollForwardFuel today f.step n d) = true) ∧
      ∃ k, k ≤ n ∧ rollForwardFuel today f.step n d = f.step^[k] d ∧
        ∀ j, j < k → Date.blt (f.step^[j] d) today = true := by
  intro n
  induction n with
  | zero =>
      intro d hd
      refine ⟨hd, ?_, 0, le_refl 0, rfl, by omega⟩
      intro hle
      unfold rollForwardFuel Date.ble
      rw [Bool.not_eq_true', ← Bool.not_eq_true, blt_iff_dval d today hd ht]
      omega
  | succ n ih =>
      intro d hd
      unfold rollForwardFuel
      by_cases hblt : Date.blt d today = true
      · rw [if_pos hblt]
        obtain ⟨hv, hge, k, hk, heq, hmin⟩ := ih (f.step d) (step_valid f d hd)
        have hstep := dval_step f d hd
        refine ⟨hv, ?_, k + 1, by omega, ?_, ?_⟩
        · intro hle
          exact hge (by omega)
        · rw [heq, ← Function.iterate_succ_apply]
        · intro j hj
          cases j with
          | zero => simpa using hblt
          | succ j =>
              rw [Function.iterate_succ_apply]
              exact hmin j (by omega)
      · rw [if_neg hblt]
        refine ⟨hd, ?_, 0, by omega, rfl, by omega⟩
        intro hle
        unfold Date.ble
        rw [Bool.not_eq_true', ← Bool.not_eq_true]
        exact hblt

/-- Summary of the `next_date` setter on valid dates: the result is valid,
on or after today, is a whole number of steps from the parsed date, every
earlier iterate was still strictly before today, and a date already on or
after today is returned unchanged. -/
theorem resolveNextDate_spec (today d : Date) (f : Freq)
    (ht : today.Valid) (hd : d.Valid) :
    (resolveNextDate today f.step d).Valid ∧
    Date.ble today (resolveNextDate today f.step d) = true ∧
    (∃ k, resolveNextDate today f.step d = f.step^[k] d ∧
      ∀ j, j < k → Date.blt (f.step^[j] d) today = true) ∧
    (Date.blt d today = false → resolveNextDate today f.step d = d) := by
  obtain ⟨hv, hge, k, hk, heq, hmin⟩ :=
    rollForwardFuel_spec today f ht (dval today + 1) d hd
  refine ⟨hv, hge (by omega), ⟨k, heq, hmin⟩, ?_⟩
  intro hblt
  unfold resolveNextDate rollForwardFuel
  rw [hblt]
  simp

/-! ## Data model: `LedgerEntry`, `RecurringTransaction`, input rows

Monetary values are modelled exactly, as integer numbers of cents (the
source rounds every amount to 2 decimal places).  `round(float(x), 2)` and
`date.fromisoformat` are external parsing steps; they are abstracted as `Option`
fields of an input row (`none` models the raised `ValueError`).
-/

/-- One posted event (`LedgerEntry` in the source). -/
structure LedgerEntry where
  date : Date
  name : String
  amount : Int
  balance : Int
deriving DecidableEq, Repr

/-- A recurring transaction after construction: `amount` is already
sign-adjusted, `frequency` already resolved, `next_date` already rolled
forward to today or later. -/
structure RecurringTransaction where
  name : String
  transaction_type : String
  amount : Int
  frequency : Freq
  next_date : Date
deriving DecidableEq, Repr

/-- One CSV row as consumed by `RecurringTransaction.__init__`.  The
`amount_val` field is `round(float(amount_raw), 2)` when that parse
succeeds, and `next_date_val` is `date.fromisoformat(next_date_raw)` when
that parse succeeds. -/
structure InputRow where
  name : String
  transaction_type : String
  amount_raw : String
  amount_val : Option Int
  frequency : String
  next_date_raw : String
  next_date_val : Option Date
deriving Repr

/-- `RecurringTransaction.__init__`: the validated setters run in source
order (transaction_type, amount, frequency, next_date); the first failing
setter calls `exit_application`, modelled as `.error` with the printed
message. -/
def mkRecurringTransaction (today : Date) (r : InputRow) :
    Except String RecurringTransaction :=
  if r.transaction_type = "income" ∨ r.transaction_type = "expense" then
    match r.amount_val with
    | none =>
        .error ("Amount of '" ++ r.amount_raw ++ "' for " ++ r.name ++ " is invalid.")
    | some v =>
        match parseFrequency r.name r.frequency with
        | .error e => .error e
        | .ok f =>
            match r.next_date_val with
            | none =>
                .error ("next_date for " ++ r.name ++
                  " is in an invalid format. Use YYYY-MM-DD.")
            | some d0 =>
                .ok { name := r.name
                      transaction_type := r.transaction_type
                      amount := if r.transaction_type = "expense" then -|v| else |v|
                      frequency := f
                      next_date := resolveNextDate today f.step d0 }
  else
    .error ("Transaction_type for " ++ r.name ++ " must be 'income' or 'expense'.")

/-- `REQUIRED_INPUT_FIELDS` (a Python set; listed here in source order). -/
def REQUIRED_INPUT_FIELDS : List String :=
  ["name", "frequency", "next_date", "amount", "transaction_type"]

/-- `set(csv_fields) == REQUIRED_INPUT_FIELDS` as two-sided containment. -/
def fieldSetMatches (fields : List String) : Bool :=
  fields.all (fun x => x ∈ REQUIRED_INPUT_FIELDS) &&
    REQUIRED_INPUT_FIELDS.all (fun x => x ∈ fields)

/-- `Ledger.validate_input_fields`. -/
def validate_input_fields (fields : List String) : Except String Unit :=
  if fieldSetMatches fields then .ok ()
  else .error "Error: Input file does not contain the correct fields."

/-- The row loop of `Ledger.import_transactions`: construct each
transaction in file order, aborting on the first failure. -/
def importRows (today : Date) : List InputRow → Except String (List RecurringTransaction)
  | [] => .ok []
  | r :: rs =>
      match mkRecurringTransaction today r with
      | .error e => .error e
      | .ok t =>
          match importRows today rs with
          | .error e => .error e
          | .ok ts => .ok (t :: ts)

/-- `Ledger.import_transactions`: validate the header first, then build
the transactions. -/
def import_transactions (today : Date) (fields : List String)
    (rows : List InputRow) : Except String (List RecurringTransaction) :=
  match validate_input_fields fields with
  | .error e => .error e
  | .ok _ => importRows today rows

/-! ## The simulation state (`Ledger`) -/

/-- The mutable state of a `Ledger` object. -/
structure LedgerState where
  current_day : Date
  end_day : Date
  starting_balance : Int
  current_balance : Int
  recurring_transactions : List RecurringTransaction
  transaction_log : List LedgerEntry
deriving Repr

/-- `RecurringTransaction.is_due`: exact equality with the current day. -/
def is_due (cur : Date) (t : RecurringTransaction) : Bool :=
  t.next_date == cur

/-- `RecurringTransaction.advance_next_date`: one recurrence step. -/
def advance_next_date (t : RecurringTransaction) : RecurringTransaction :=
  { t with next_date := t.frequency.step t.next_date }

/-- The balance-and-log part of `Ledger.record_transaction`. -/
def record_transaction (s : LedgerState) (t : RecurringTransaction) : LedgerState :=
  { s with
      current_balance := s.current_balance + t.amount
      transaction_log := s.transaction_log ++
        [⟨s.current_day, t.name, t.amount, s.current_balance + t.amount⟩] }

/-- `Ledger.record_starting_balance_to_ledger`. -/
def record_starting_balance_to_ledger (s : LedgerState) : LedgerState :=
  { s with
      transaction_log := s.transaction_log ++
        [⟨s.current_day, "Opening Balance", s.starting_balance, s.starting_balance⟩] }

/-- `Ledger.get_transactions_for_day`: the due transactions in list order. -/
def get_transactions_for_day (s : LedgerState) : List RecurringTransaction :=
  s.recurring_transactions.filter (is_due s.current_day)

/-- The `for transaction in transaction_list: record_transaction(...)` part
of one loop iteration, followed by the `advance_next_date` calls that
`record_transaction` performs on each recorded transaction.  The due list
is computed before the loop, and recording touches only the balance, the
log and the recorded transaction's own `next_date`, so the in-place
mutation of the source is equivalent to this two-phase form. -/
def processDay (s : LedgerState) : LedgerState :=
  let posted := (get_transactions_for_day s).foldl record_transaction s
  { posted with
      recurring_transactions := s.recurring_transactions.map
        (fun t => if is_due s.current_day t then advance_next_date t else t) }

/-- `Ledger.date_advance`: one calendar day forward. -/
def date_advance (s : LedgerState) : LedgerState :=
  { s with current_day := s.current_day.addDays 1 }

/-- `Ledger.is_active`: `current_day <= end_day`. -/
def is_active (s : LedgerState) : Bool :=
  Date.ble s.current_day s.end_day

/-- One iteration of the `while` body of `Ledger.run_loop`. -/
def stepDay (s : LedgerState) : LedgerState :=
  date_advance (processDay s)

/-- Fuel-indexed unfolding of `Ledger.run_loop`'s `while self.is_active()`
loop.  `days + 1` fuel is exactly enough (proved below): the loop body runs
once per calendar day of the inclusive horizon. -/
def run_loop : Nat → LedgerState → LedgerState
  | 0, s => s
  | n + 1, s => if is_active s then run_loop n (stepDay s) else s

/-- `Ledger.__init__` after a successful import: the fields are initialised
and the Opening Balance entry is appended before the loop starts. -/
def initLedger (today : Date) (days : Nat) (startBal : Int)
    (txns : List RecurringTransaction) : LedgerState :=
  record_starting_balance_to_ledger
    { current_day := today
      end_day := today.addDays days
      starting_balance := startBal
      current_balance := startBal
      recurring_transactions := txns
      transaction_log := [] }

/-- The whole run for a valid CLI invocation: import, construct the ledger,
run the loop over the inclusive horizon. -/
def runForecast (today : Date) (days : Nat) (startBal : Int)
    (fields : List String) (rows : List InputRow) : Except String LedgerState :=
  match import_transactions today fields rows with
  | .error e => .error e
  | .ok txns => .ok (run_loop (days + 1) (initLedger today days startBal txns))

/-! ## Export (`Ledger.export_ledger`) -/

/-- Outcome of writing the export file, abstracting the filesystem. -/
inductive WriteResult where
  | success
  | fileNotFound
  | otherError (msg : String)
deriving DecidableEq, Repr

/-- Observable outcome of `export_ledger`: a successful write of header and
rows, a diagnostic printed to standard output followed by `exit(code)`
(`exit_application`), or a Python exception that no handler catches
(traceback on standard error, abnormal termination). -/
inductive ExportOutcome where
  | written (header : List String) (rows : List LedgerEntry)
  | exitDiag (message : String) (code : Nat)
  | uncaughtExc (excName : String)
deriving DecidableEq, Repr

/-- `Ledger.export_ledger`.  `field_names = ledger_data[0].keys()` is
evaluated before the `try` block, so on an empty ledger the `IndexError`
escapes uncaught; only errors raised by the write itself reach the two
`except` arms, which call `exit_application` (exit code 1). -/
def export_ledger (log : List LedgerEntry) (w : WriteResult) : ExportOutcome :=
  if log.isEmpty then .uncaughtExc "IndexError"
  else
    match w with
    | .fileNotFound => .exitDiag "Unable to write to the export location" 1
    | .otherError e => .exitDiag ("An unexpected error occurred: " ++ e) 1
    | .success => .written ["date", "name", "amount", "balance"] log

/-- Whether an outcome is the `exit_application` diagnostic path. -/
def ExportOutcome.isExitDiag : ExportOutcome → Bool
  | .exitDiag _ _ => true
  | _ => false

/-! ## Closed forms for one simulated day -/

/-- The entries appended when `ts` are recorded in order on day `cur`
starting from balance `bal`: each entry carries its transaction's signed
amount and the cumulatively updated balance. -/
def postedEntries (cur : Date) (bal : Int) :
    List RecurringTransaction → List LedgerEntry
  | [] => []
  | t :: ts =>
      ⟨cur, t.name, t.amount, bal + t.amount⟩ ::
        postedEntries cur (bal + t.amount) ts

theorem postedEntries_length (cur : Date) (bal : Int)
    (ts : List RecurringTransaction) :
    (postedEntries cur bal ts).length = ts.length := by
  induction ts generalizing bal with
  | nil => rfl
  | cons t ts ih => simp [postedEntries, ih]

theorem postedEntries_map_amount (cur : Date) (bal : Int)
    (ts : List RecurringTransaction) :
    (postedEntries cur bal ts).map LedgerEntry.amount =
      ts.map RecurringTransaction.amount := by
  induction ts generalizing bal with
  | nil => rfl
  | cons t ts ih => simp [postedEntries, ih]

theorem postedEntries_getElem (cur : Date) (bal : Int)
    (ts : List RecurringTransaction) (i : Nat) (hi : i < ts.length) :
    (postedEntries cur bal ts)[i]? =
      some ⟨cur, (ts.get ⟨i, hi⟩).name, (ts.get ⟨i, hi⟩).amount,
        bal + ((ts.take (i + 1)).map RecurringTransaction.amount).sum⟩ := by
  induction ts generalizing bal i with
  | nil => simp at hi
  | cons t ts ih =>
      cases i with
      | zero => simp [postedEntries]
      | succ i =>
          have hi2 : i < ts.length := by simpa using hi
          simp only [postedEntries, List.getElem?_cons_succ]
          rw [ih (bal + t.amount) i hi2]
          simp [add_assoc]

theorem foldl_record_transaction (ts : List RecurringTransaction)
    (s : LedgerState) :
    ts.foldl record_transaction s =
      { s with
          current_balance :=
            s.current_balance + (ts.map RecurringTransaction.amount).sum
          transaction_log :=
            s.transaction_log ++ postedEntries s.current_day s.current_balance ts } := by
  induction ts generalizing s with
  | nil => cases s; simp [postedEntries]
  | cons t ts ih =>
      simp only [List.foldl_cons]
      rw [ih]
      cases s
      simp [record_transaction, postedEntries, add_assoc]

/-- `processDay` in closed form: balance increases by the sum of the due
amounts, the log grows by the block of posted entries, and exactly the due
transactions advance by one step. -/
theorem processDay_eq (s : LedgerState) :
    processDay s =
      { s with
          current_balance := s.current_balance +
            ((get_transactions_for_day s).map RecurringTransaction.amount).sum
          transaction_log := s.transaction_log ++
            postedEntries s.current_day s.current_balance (get_transactions_for_day s)
          recurring_transactions := s.recurring_transactions.map
            (fun t => if is_due s.current_day t then advance_next_date t else t) } := by
  unfold processDay
  rw [foldl_record_transaction]

theorem processDay_current_day (s : LedgerState) :
    (processDay s).current_day = s.current_day := by
  rw [processDay_eq]

theorem processDay_end_day (s : LedgerState) :
    (processDay s).end_day = s.end_day := by
  rw [processDay_eq]

theorem stepDay_current_day (s : LedgerState) :
    (stepDay s).current_day = s.current_day.addDays 1 := by
  unfold stepDay date_advance
  rw [processDay_current_day]

theorem stepDay_end_day (s : LedgerState) :
    (stepDay s).end_day = s.end_day := by
  unfold stepDay date_advance
  simp [processDay_end_day]

theorem stepDay_iterate_current_day (s : LedgerState) (k : Nat) :
    (stepDay^[k] s).current_day = s.current_day.addDays k := by
  induction k with
  | zero => rfl
  | succ k ih =>
      rw [Function.iterate_succ_apply', stepDay_current_day, ih]
      unfold Date.addDays
      rw [← Function.iterate_add_apply]
      congr 1
      omega

theorem stepDay_iterate_end_day (s : LedgerState) (k : Nat) :
    (stepDay^[k] s).end_day = s.end_day := by
  induction k with
  | zero => rfl
  | succ k ih => rw [Function.iterate_succ_apply', stepDay_end_day, ih]

/-! ## Unrolling `run_loop` -/

theorem run_loop_inactive (n : Nat) (s : LedgerState)
    (h : is_active s = false) : run_loop n s = s := by
  cases n with
  | zero => rfl
  | succ n => unfold run_loop; rw [h]; simp

theorem run_loop_succ (n : Nat) (s : LedgerState) :
    run_loop (n + 1) s = if is_active s then run_loop n (stepDay s) else s := rfl

theorem run_loop_add (n m : Nat) (s : LedgerState)
    (h : ∀ j, j < n → is_active (stepDay^[j] s) = true) :
    run_loop (n + m) s = run_loop m (stepDay^[n] s) := by
  induction n generalizing s with
  | zero => simp
  | succ n ih =>
      have h0 : is_active s = true := h 0 (by omega)
      have hstep : ∀ j, j < n → is_active (stepDay^[j] (stepDay s)) = true := by
        intro j hj
        rw [← Function.iterate_succ_apply]
        exact h (j + 1) (by omega)
      have hm : n + 1 + m = (n + m) + 1 := by omega
      rw [hm, run_loop_succ, if_pos h0, ih (stepDay s) hstep,
        ← Function.iterate_succ_apply]

theorem run_loop_eq_iterate (n : Nat) (s : LedgerState)
    (h : ∀ j, j < n → is_active (stepDay^[j] s) = true) :
    run_loop n s = stepDay^[n] s := by
  have h2 := run_loop_add n 0 s h
  simpa [run_loop] using h2

/-! ## `initLedger` field computations -/

theorem initLedger_current_day (today : Date) (days : Nat) (startBal : Int)
    (txns : List RecurringTransaction) :
    (initLedger today days startBal txns).current_day = today := rfl

theorem initLedger_end_day (today : Date) (days : Nat) (startBal : Int)
    (txns : List RecurringTransaction) :
    (initLedger today days startBal txns).end_day = today.addDays days := rfl

theorem initLedger_log (today : Date) (days : Nat) (startBal : Int)
    (txns : List RecurringTransaction) :
    (initLedger today days startBal txns).transaction_log =
      [⟨today, "Opening Balance", startBal, startBal⟩] := rfl

theorem initLedger_txns (today : Date) (days : Nat) (startBal : Int)
    (txns : List RecurringTransaction) :
    (initLedger today days startBal txns).recurring_transactions = txns := rfl

theorem initLedger_balance (today : Date) (days : Nat) (startBal : Int)
    (txns : List RecurringTransaction) :
    (initLedger today days startBal txns).current_balance = startBal := rfl

/-! ## Activity of the loop over the inclusive horizon -/

theorem addDays_add (d : Date) (a b : Nat) :
    (d.addDays a).addDays b = d.addDays (a + b) := by
  unfold Date.addDays
  rw [← Function.iterate_add_apply]
  congr 1
  omega

theorem dval_addDays_lt (t : Date) (ht : t.Valid) (k j : Nat) (h : k < j) :
    dval (t.addDays k) < dval (t.addDays j) := by
  have hv := addDays_valid t k ht
  have hj : t.addDays j = (t.addDays k).addDays (j - k) := by
    rw [addDays_add]
    congr 1
    omega
  rw [hj]
  exact dval_addDays (t.addDays k) (j - k) (by omega) hv

theorem active_iterate (today : Date) (days : Nat) (startBal : Int)
    (txns : List RecurringTransaction) (ht : today.Valid)
    (k : Nat) (hk : k ≤ days) :
    is_active (stepDay^[k] (initLedger today days startBal txns)) = true := by
  unfold is_active
  rw [stepDay_iterate_current_day, stepDay_iterate_end_day,
    initLedger_current_day, initLedger_end_day,
    ble_iff_dval _ _ (addDays_valid today k ht) (addDays_valid today days ht)]
  rcases Nat.eq_or_lt_of_le hk with he | hlt
  · rw [he]
  · exact le_of_lt (dval_addDays_lt today ht k days hlt)

theorem inactive_final (today : Date) (days : Nat) (startBal : Int)
    (txns : List RecurringTransaction) (ht : today.Valid) :
    is_active (stepDay^[days + 1] (initLedger today days startBal txns)) = false := by
  unfold is_active
  rw [stepDay_iterate_current_day, stepDay_iterate_end_day,
    initLedger_current_day, initLedger_end_day]
  have hblt : Date.blt (today.addDays days) (today.addDays (days + 1)) = true :=
    (blt_iff_dval _ _ (addDays_valid today days ht)
      (addDays_valid today (days + 1) ht)).mpr
      (dval_addDays_lt today ht days (days + 1) (by omega))
  unfold Date.ble
  rw [hblt]
  rfl

/-! ## The running-balance invariant -/

/-- Every recorded balance is the sum of the signed amounts of the entries
up to and including it, and the live `current_balance` is the sum over the
whole log. -/
def ledgerSums (s : LedgerState) : Prop :=
  (∀ k e, s.transaction_log[k]? = some e →
      e.balance = ((s.transaction_log.take (k + 1)).map LedgerEntry.amount).sum) ∧
  s.current_balance = (s.transaction_log.map LedgerEntry.amount).sum

theorem stepDay_log (s : LedgerState) :
    (stepDay s).transaction_log = s.transaction_log ++
      postedEntries s.current_day s.current_balance (get_transactions_for_day s) := by
  unfold stepDay date_advance
  simp [processDay_eq]

theorem stepDay_balance (s : LedgerState) :
    (stepDay s).current_balance = s.current_balance +
      ((get_transactions_for_day s).map RecurringTransaction.amount).sum := by
  unfold stepDay date_advance
  simp [processDay_eq]

theorem stepDay_txns (s : LedgerState) :
    (stepDay s).recurring_transactions = s.recurring_transactions.map
      (fun t => if is_due s.current_day t then advance_next_date t else t) := by
  unfold stepDay date_advance
  simp [processDay_eq]

theorem ledgerSums_stepDay (s : LedgerState) (h : ledgerSums s) :
    ledgerSums (stepDay s) := by
  obtain ⟨h1, h2⟩ := h
  constructor
  · intro k e hk
    rw [stepDay_log] at hk ⊢
    by_cases hlt : k < s.transaction_log.length
    · rw [List.getElem?_append_left hlt] at hk
      rw [List.take_append_of_le_length (by omega)]
      exact h1 k e hk
    · rw [List.getElem?_append_right (by omega)] at hk
      have hi : k - s.transaction_log.length <
          (postedEntries s.current_day s.current_balance
            (get_transactions_for_day s)).length := by
        rcases List.getElem?_eq_some_iff.mp hk with ⟨hlen, _⟩
        exact hlen
      rw [postedEntries_length] at hi
      rw [postedEntries_getElem _ _ _ _ hi] at hk
      have hke : k + 1 = s.transaction_log.length + (k - s.transaction_log.length + 1) := by
        omega
      rw [hke, List.take_append, List.map_append, List.sum_append,
        List.map_take, postedEntries_map_amount, ← List.map_take]
      injection hk with hk
      subst hk
      dsimp only
      rw [h2]
  · rw [stepDay_log, stepDay_balance, List.map_append, List.sum_append,
      postedEntries_map_amount, h2]

theorem ledgerSums_run_loop (n : Nat) (s : LedgerState) (h : ledgerSums s) :
    ledgerSums (run_loop n s) := by
  induction n generalizing s with
  | zero => exact h
  | succ n ih =>
      rw [run_loop_succ]
      by_cases ha : is_active s = true
      · rw [if_pos ha]
        exact ih (stepDay s) (ledgerSums_stepDay s h)
      · rw [if_neg ha]
        exact h

theorem ledgerSums_initLedger (today : Date) (days : Nat) (startBal : Int)
    (txns : List RecurringTransaction) :
    ledgerSums (initLedger today days startBal txns) := by
  constructor
  · intro k e hk
    rw [initLedger_log] at hk ⊢
    cases k with
    | zero =>
        simp only [List.getElem?_cons_zero, Option.some.injEq] at hk
        cases hk
        simp
    | succ k => simp at hk
  · rw [initLedger_log, initLedger_balance]
    simp

/-- Consecutive entries differ by exactly the later entry's amount. -/
def chained (log : List LedgerEntry) : Prop :=
  ∀ k a b, log[k]? = some a → log[k + 1]? = some b →
    b.balance = a.balance + b.amount

theorem ledgerSums_chained (s : LedgerState) (h : ledgerSums s) :
    chained s.transaction_log := by
  intro k a b hka hkb
  have ha := h.1 k a hka
  have hb := h.1 (k + 1) b hkb
  rcases List.getElem?_eq_some_iff.mp hkb with ⟨hlen, hget⟩
  rw [List.take_succ, hkb] at hb
  simp only [List.map_append, List.sum_append, Option.toList_some] at hb
  rw [ha, hb]
  simp

/-! ## The no-skip invariant -/

/-- The loop's date bookkeeping stays on valid calendar dates. -/
def datesOk (s : LedgerState) : Prop :=
  s.current_day.Valid ∧ ∀ t ∈ s.recurring_transactions, t.next_date.Valid

/-- No transaction's due date lies in the past of the simulated clock. -/
def noSkip (s : LedgerState) : Prop :=
  ∀ t ∈ s.recurring_transactions, Date.ble s.current_day t.next_date = true

theorem ble_and_ne_blt (a b : Date) (ha : a.Valid) (hb : b.Valid)
    (hle : Date.ble a b = true) (hne : b ≠ a) : Date.blt a b = true := by
  rw [ble_iff_dval a b ha hb] at hle
  rw [blt_iff_dval a b ha hb]
  rcases Nat.lt_or_ge (dval a) (dval b) with h | h
  · exact h
  · exact absurd (dval_inj b a hb ha (by omega)) hne

theorem noSkip_stepDay (s : LedgerState) (h1 : datesOk s) (h2 : noSkip s) :
    datesOk (stepDay s) ∧ noSkip (stepDay s) := by
  obtain ⟨hcur, htx⟩ := h1
  have hcd : (stepDay s).current_day = s.current_day.nextDay := by
    rw [stepDay_current_day]
    unfold Date.addDays
    exact Function.iterate_one Date.nextDay ▸ rfl
  refine ⟨⟨?_, ?_⟩, ?_⟩
  · rw [hcd]
    exact nextDay_valid _ hcur
  · intro t' ht'
    rw [stepDay_txns] at ht'
    obtain ⟨t, ht, heq⟩ := List.mem_map.mp ht'
    by_cases hd : is_due s.current_day t = true
    · rw [if_pos hd] at heq
      cases heq
      exact step_valid _ _ (htx t ht)
    · rw [if_neg hd] at heq
      rw [← heq]
      exact htx t ht
  · intro t' ht'
    rw [hcd]
    rw [stepDay_txns] at ht'
    obtain ⟨t, ht, heq⟩ := List.mem_map.mp ht'
    by_cases hd : is_due s.current_day t = true
    · rw [if_pos hd] at heq
      cases heq
      have hteq : t.next_date = s.current_day := by
        have := hd
        unfold is_due at this
        exact beq_iff_eq.mp this
      have hstep : Date.blt s.current_day (t.frequency.step s.current_day) = true :=
        (blt_iff_dval _ _ hcur (step_valid _ _ hcur)).mpr (dval_step _ _ hcur)
      have := nextDay_min s.current_day (t.frequency.step s.current_day)
        hcur (step_valid _ _ hcur) hstep
      unfold advance_next_date
      dsimp only
      rw [hteq]
      exact this
    · rw [if_neg hd] at heq
      rw [← heq]
      have hne : t.next_date ≠ s.current_day := by
        intro he
        apply hd
        unfold is_due
        exact beq_iff_eq.mpr he
      have hblt : Date.blt s.current_day t.next_date = true :=
        ble_and_ne_blt s.current_day t.next_date hcur (htx t ht) (h2 t ht) hne
      exact nextDay_min s.current_day t.next_date hcur (htx t ht) hblt

theorem noSkip_iterate (s : LedgerState) (h1 : datesOk s) (h2 : noSkip s)
    (k : Nat) : datesOk (stepDay^[k] s) ∧ noSkip (stepDay^[k] s) := by
  induction k with
  | zero => exact ⟨h1, h2⟩
  | succ k ih =>
      rw [Function.iterate_succ_apply']
      exact noSkip_stepDay _ ih.1 ih.2

/-! ## Construction and import facts -/

theorem mk_ok_next_date (today : Date) (r : InputRow) (t : RecurringTransaction)
    (h : mkRecurringTransaction today r = .ok t) :
    ∃ d0, r.next_date_val = some d0 ∧
      t.next_date = resolveNextDate today t.frequency.step d0 := by
  unfold mkRecurringTransaction at h
  by_cases htt : (r.transaction_type = "income" ∨ r.transaction_type = "expense")
  · rw [if_pos htt] at h
    cases hv : r.amount_val with
    | none => rw [hv] at h; simp at h
    | some v =>
        rw [hv] at h
        cases hf : parseFrequency r.name r.frequency with
        | error e => rw [hf] at h; simp at h
        | ok f =>
            rw [hf] at h
            cases hd : r.next_date_val with
            | none => rw [hd] at h; simp at h
            | some d0 =>
                rw [hd] at h
                simp only [Except.ok.injEq] at h
                subst h
                exact ⟨d0, rfl, rfl⟩
  · rw [if_neg htt] at h
    simp at h

theorem importRows_mem (today : Date) (rows : List InputRow)
    (ts : List RecurringTransaction) (h : importRows today rows = .ok ts) :
    ∀ t ∈ ts, ∃ r ∈ rows, mkRecurringTransaction today r = .ok t := by
  induction rows generalizing ts with
  | nil =>
      unfold importRows at h
      simp only [Except.ok.injEq] at h
      subst h
      simp
  | cons r rs ih =>
      unfold importRows at h
      cases hm : mkRecurringTransaction today r with
      | error e => rw [hm] at h; simp at h
      | ok t0 =>
          rw [hm] at h
          cases hrest : importRows today rs with
          | error e => rw [hrest] at h; simp at h
          | ok ts0 =>
              rw [hrest] at h
              simp only [Except.ok.injEq] at h
              subst h
              intro t ht
              rcases List.mem_cons.mp ht with h1 | h1
              · exact ⟨r, List.mem_cons_self r rs, h1 ▸ hm⟩
              · obtain ⟨r2, hr2, hmk⟩ := ih ts0 hrest t h1
                exact ⟨r2, List.mem_cons_of_mem r hr2, hmk⟩

theorem import_ok_importRows (today : Date) (fields : List String)
    (rows : List InputRow) (ts : List RecurringTransaction)
    (h : import_transactions today fields rows = .ok ts) :
    importRows today rows = .ok ts := by
  unfold import_transactions validate_input_fields at h
  by_cases hf : fieldSetMatches fields = true
  · rw [if_pos hf] at h
    exact h
  · rw [if_neg hf] at h
    simp at h

/-- Every transaction a successful import produces has a valid `next_date`
on or after today (given that the parsed input dates are valid calendar
dates, which `date.fromisoformat` guarantees). -/
theorem import_ok_next_dates (today : Date) (fields : List String)
    (rows : List InputRow) (ts : List RecurringTransaction)
    (ht : today.Valid)
    (hrows : ∀ r ∈ rows, ∀ d, r.next_date_val = some d → d.Valid)
    (h : import_transactions today fields rows = .ok ts) :
    ∀ t ∈ ts, t.next_date.Valid ∧ Date.ble today t.next_date = true := by
  intro t htmem
  obtain ⟨r, hr, hmk⟩ := importRows_mem today rows ts
    (import_ok_importRows today fields rows ts h) t htmem
  obtain ⟨d0, hd0, hnd⟩ := mk_ok_next_date today r t hmk
  have hd0v : d0.Valid := hrows r hr d0 hd0
  obtain ⟨hv, hge, _, _⟩ := resolveNextDate_spec today d0 t.frequency ht hd0v
  rw [hnd]
  exact ⟨hv, hge⟩

/-! ## Run-level helpers -/

theorem run_loop_log_prefix (n : Nat) (s : LedgerState) :
    ∃ ext, (run_loop n s).transaction_log = s.transaction_log ++ ext := by
  induction n generalizing s with
  | zero => exact ⟨[], by simp [run_loop]⟩
  | succ n ih =>
      rw [run_loop_succ]
      by_cases ha : is_active s = true
      · rw [if_pos ha]
        obtain ⟨ext, hext⟩ := ih (stepDay s)
        rw [hext, stepDay_log]
        exact ⟨_, by rw [List.append_assoc]⟩
      · rw [if_neg ha]
        exact ⟨[], by simp⟩

theorem runForecast_ok_state (today : Date) (days : Nat) (startBal : Int)
    (fields : List String) (rows : List InputRow) (s : LedgerState)
    (h : runForecast today days startBal fields rows = .ok s) :
    ∃ txns, import_transactions today fields rows = .ok txns ∧
      s = run_loop (days + 1) (initLedger today days startBal txns) := by
  unfold runForecast at h
  cases himp : import_transactions today fields rows with
  | error e => rw [himp] at h; simp at h
  | ok txns =>
      rw [himp] at h
      simp only [Except.ok.injEq] at h
      exact ⟨txns, rfl, h.symm⟩

theorem runForecast_first_entry (today : Date) (days : Nat) (startBal : Int)
    (fields : List String) (rows : List InputRow) (s : LedgerState)
    (h : runForecast today days startBal fields rows = .ok s) :
    s.transaction_log[0]? = some ⟨today, "Opening Balance", startBal, startBal⟩ := by
  obtain ⟨txns, himp, hs⟩ := runForecast_ok_state today days startBal fields rows s h
  obtain ⟨ext, hext⟩ := run_loop_log_prefix (days + 1) (initLedger today days startBal txns)
  rw [hs, hext, initLedger_log]
  simp

/-! ## Claim C1 -/

/-- The concrete final state of a run with no transactions, horizon 1 and
starting balance 100. -/
def runStateC1 : LedgerState :=
  { current_day := ⟨1, 1, 4⟩
    end_day := ⟨1, 1, 3⟩
    starting_balance := 100
    current_balance := 100
    recurring_transactions := []
    transaction_log := [⟨⟨1, 1, 2⟩, "Opening Balance", 100, 100⟩] }

/-- C1 (counterexample): for the run with starting balance 100 and no
transactions, the first ledger entry (the Opening Balance entry, recorded
balance 100) does not equal the starting balance plus the sum of the signed
amounts of entries 1..1, because that sum already contains the opening
amount 100, giving 200.  So the claimed identity fails at its concrete
instance k = 1. -/
theorem c1_counterexample :
    ¬ (∀ s, runForecast ⟨1, 1, 2⟩ 1 100 REQUIRED_INPUT_FIELDS [] = Except.ok s →
        ∀ k e, s.transaction_log[k]? = some e →
          e.balance = 100 +
            ((s.transaction_log.take (k + 1)).map LedgerEntry.amount).sum) := by
  intro h
  have h2 := h runStateC1 (by rfl) 0 ⟨⟨1, 1, 2⟩, "Opening Balance", 100, 100⟩ (by rfl)
  exact absurd h2 (by decide)

/-- C1 (amended): in every ledger a run produces, the balance recorded in
entry k equals the sum of the signed amounts of entries 1..k with the
Opening Balance entry's amount included — equivalently, the starting
balance plus the amounts of entries 2..k, since the opening entry's amount
is itself the starting balance.  (The original claim added the starting
balance to a sum that already contains it.) -/
theorem c1_running_balance (today : Date) (days : Nat) (startBal : Int)
    (fields : List String) (rows : List InputRow) (s : LedgerState)
    (h : runForecast today days startBal fields rows = .ok s) :
    (∀ k e, s.transaction_log[k]? = some e →
      e.balance = ((s.transaction_log.take (k + 1)).map LedgerEntry.amount).sum) ∧
    s.transaction_log[0]?.map LedgerEntry.amount = some startBal := by
  obtain ⟨txns, himp, hs⟩ := runForecast_ok_state today days startBal fields rows s h
  constructor
  · rw [hs]
    exact (ledgerSums_run_loop (days + 1) _
      (ledgerSums_initLedger today days startBal txns)).1
  · rw [runForecast_first_entry today days startBal fields rows s h]
    rfl

/-- C1 witness data: a run with starting balance 7 and no transactions. -/
def runStateC1w : LedgerState :=
  { current_day := ⟨1, 1, 3⟩
    end_day := ⟨1, 1, 2⟩
    starting_balance := 7
    current_balance := 7
    recurring_transactions := []
    transaction_log := [⟨⟨1, 1, 2⟩, "Opening Balance", 7, 7⟩] }

/-- Witness for the amended C1 at a concrete run. -/
theorem c1_running_balance_witness :
    (∀ k e, runStateC1w.transaction_log[k]? = some e →
      e.balance = ((runStateC1w.transaction_log.take (k + 1)).map LedgerEntry.amount).sum) ∧
    runStateC1w.transaction_log[0]?.map LedgerEntry.amount = some 7 :=
  c1_running_balance ⟨1, 1, 2⟩ 0 7 REQUIRED_INPUT_FIELDS [] runStateC1w (by rfl)

/-! ## Claim C2 -/

/-- C2 (counterexample): export on an empty ledger does not take the
`exit_application` path at all — the empty indexing `ledger_data[0]`
happens before the `try` block, so an `IndexError` escapes uncaught
(traceback on standard error) instead of a single diagnostic line printed
to standard output. -/
theorem c2_counterexample :
    export_ledger [] WriteResult.success = ExportOutcome.uncaughtExc "IndexError" ∧
    (export_ledger [] WriteResult.success).isExitDiag = false :=
  ⟨rfl, rfl⟩

/-- C2 (amended): invoking export on an empty ledger raises an uncaught
`IndexError` while deriving the header, before any write is attempted, and
the process terminates abnormally rather than via the single-diagnostic-line
exit path; the diagnostic-plus-`exit(1)` behaviour claimed happens only for
write failures on a nonempty ledger. -/
theorem c2_export_empty (w : WriteResult) (log : List LedgerEntry)
    (hlog : log ≠ []) :
    export_ledger [] w = ExportOutcome.uncaughtExc "IndexError" ∧
    export_ledger log WriteResult.fileNotFound =
      ExportOutcome.exitDiag "Unable to write to the export location" 1 ∧
    (∀ msg, export_ledger log (WriteResult.otherError msg) =
      ExportOutcome.exitDiag ("An unexpected error occurred: " ++ msg) 1) := by
  have hne : log.isEmpty = false := by
    cases log with
    | nil => exact absurd rfl hlog
    | cons a l => rfl
  refine ⟨rfl, ?_, ?_⟩
  · simp [export_ledger, hne]
  · intro msg
    simp [export_ledger, hne]

/-- Witness ledger entry for C2. -/
def entryC2 : LedgerEntry := ⟨⟨1, 1, 2⟩, "Opening Balance", 100, 100⟩

/-- Witness for the amended C2 at a concrete ledger. -/
theorem c2_export_empty_witness :
    export_ledger [] WriteResult.success = ExportOutcome.uncaughtExc "IndexError" ∧
    export_ledger [entryC2] WriteResult.fileNotFound =
      ExportOutcome.exitDiag "Unable to write to the export location" 1 ∧
    (∀ msg, export_ledger [entryC2] (WriteResult.otherError msg) =
      ExportOutcome.exitDiag ("An unexpected error occurred: " ++ msg) 1) :=
  c2_export_empty WriteResult.success [entryC2] (by simp)

/-! ## Claim C9 -/

/-- C9: in every ledger the simulation produces, the first entry has
balance = amount = starting balance, consecutive entries satisfy
`balance[k+1] = balance[k] + amount[k+1]`, and the appending operation
`record_transaction` preserves the step-consistency relation whenever the
live balance agrees with the last recorded balance (which the simulation
maintains). -/
theorem c9_step_consistency (today : Date) (days : Nat) (startBal : Int)
    (fields : List String) (rows : List InputRow) (s : LedgerState)
    (h : runForecast today days startBal fields rows = .ok s) :
    (s.transaction_log[0]?.map LedgerEntry.balance = some startBal ∧
     s.transaction_log[0]?.map LedgerEntry.amount = some startBal) ∧
    chained s.transaction_log ∧
    (∀ s2 t, chained s2.transaction_log →
      (∀ a, s2.transaction_log.getLast? = some a → a.balance = s2.current_balance) →
      chained (record_transaction s2 t).transaction_log) := by
  obtain ⟨txns, himp, hs⟩ := runForecast_ok_state today days startBal fields rows s h
  refine ⟨?_, ?_, ?_⟩
  · rw [runForecast_first_entry today days startBal fields rows s h]
    exact ⟨rfl, rfl⟩
  · rw [hs]
    exact ledgerSums_chained _ (ledgerSums_run_loop (days + 1) _
      (ledgerSums_initLedger today days startBal txns))
  · intro s2 t hch hlast
    intro k a b hka hkb
    have hlog : (record_transaction s2 t).transaction_log =
        s2.transaction_log ++
          [⟨s2.current_day, t.name, t.amount, s2.current_balance + t.amount⟩] := rfl
    rw [hlog] at hka hkb
    by_cases h1 : k + 1 < s2.transaction_log.length
    · rw [List.getElem?_append_left h1] at hkb
      rw [List.getElem?_append_left (by omega)] at hka
      exact hch k a b hka hkb
    · by_cases h2 : k + 1 = s2.transaction_log.length
      · rw [List.getElem?_append_right (by omega)] at hkb
        have hz : k + 1 - s2.transaction_log.length = 0 := by omega
        rw [hz] at hkb
        simp only [List.getElem?_cons_zero, Option.some.injEq] at hkb
        subst hkb
        rw [List.getElem?_append_left (by omega)] at hka
        have hlast2 : s2.transaction_log.getLast? = some a := by
          rw [List.getLast?_eq_getElem?]
          have he : s2.transaction_log.length - 1 = k := by omega
          rw [he]
          exact hka
        have hab := hlast a hlast2
        dsimp only
        rw [hab]
      · rw [List.getElem?_append_right (by omega)] at hkb
        have hnone : ([(⟨s2.current_day, t.name, t.amount,
            s2.current_balance + t.amount⟩ : LedgerEntry)])[k + 1 -
              s2.transaction_log.length]? = none := by
          apply List.getElem?_eq_none
          simp only [List.length_singleton]
          omega
        rw [hnone] at hkb
        exact absurd hkb (by simp)

/-- Witness for C9 at a concrete run. -/
def runStateC9 : LedgerState :=
  { current_day := ⟨1, 1, 3⟩
    end_day := ⟨1, 1, 2⟩
    starting_balance := 50
    current_balance := 50
    recurring_transactions := []
    transaction_log := [⟨⟨1, 1, 2⟩, "Opening Balance", 50, 50⟩] }

theorem c9_step_consistency_witness :
    (runStateC9.transaction_log[0]?.map LedgerEntry.balance = some 50 ∧
     runStateC9.transaction_log[0]?.map LedgerEntry.amount = some 50) ∧
    chained runStateC9.transaction_log ∧
    (∀ s2 t, chained s2.transaction_log →
      (∀ a, s2.transaction_log.getLast? = some a → a.balance = s2.current_balance) →
      chained (record_transaction s2 t).transaction_log) :=
  c9_step_consistency ⟨1, 1, 2⟩ 0 50 REQUIRED_INPUT_FIELDS [] runStateC9 (by rfl)

/-! ## Claim C3 -/

/-- C3: for every transaction the construction accepts, the stored
`next_date` is on or after today, it is a whole number of recurrence steps
from the parsed input date (never a partial step), every earlier iterate
was still strictly before today (so the setter added exactly one step at a
time until reaching today or later), and a parsed date equal to today is
kept unchanged. -/
theorem c3_next_date_whole_steps (today : Date) (r : InputRow)
    (t : RecurringTransaction) (ht : today.Valid)
    (hr : ∀ d, r.next_date_val = some d → d.Valid)
    (hmk : mkRecurringTransaction today r = .ok t) :
    Date.ble today t.next_date = true ∧
    (∃ d0, r.next_date_val = some d0 ∧
      (∃ k, t.next_date = t.frequency.step^[k] d0 ∧
        ∀ j, j < k → Date.blt (t.frequency.step^[j] d0) today = true) ∧
      (d0 = today → t.next_date = d0)) := by
  obtain ⟨d0, hd0, hnd⟩ := mk_ok_next_date today r t hmk
  have hd0v : d0.Valid := hr d0 hd0
  obtain ⟨hv, hge, hiter, hunch⟩ := resolveNextDate_spec today d0 t.frequency ht hd0v
  rw [hnd]
  refine ⟨hge, d0, hd0, hiter, ?_⟩
  intro he
  apply hunch
  rw [he]
  exact blt_irrefl today

/-- Witness input row for C3: a weekly transaction dated two whole weeks
before today. -/
def rowC3 : InputRow :=
  { name := "pay"
    transaction_type := "income"
    amount_raw := "5"
    amount_val := some 5
    frequency := "weekly"
    next_date_raw := "0001-01-01"
    next_date_val := some ⟨1, 1, 1⟩ }

/-- The transaction rowC3 constructs when today is 0001-01-15. -/
def txnC3 : RecurringTransaction :=
  { name := "pay"
    transaction_type := "income"
    amount := 5
    frequency := .weekly
    next_date := ⟨1, 1, 15⟩ }

theorem c3_next_date_whole_steps_witness :
    Date.ble ⟨1, 1, 15⟩ txnC3.next_date = true ∧
    (∃ d0, rowC3.next_date_val = some d0 ∧
      (∃ k, txnC3.next_date = txnC3.frequency.step^[k] d0 ∧
        ∀ j, j < k →
          Date.blt (txnC3.frequency.step^[j] d0) ⟨1, 1, 15⟩ = true) ∧
      (d0 = ⟨1, 1, 15⟩ → txnC3.next_date = d0)) :=
  c3_next_date_whole_steps ⟨1, 1, 15⟩ rowC3 txnC3 (by decide)
    (by
      intro d hd
      injection hd with hd
      rw [← hd]
      decide)
    (by rfl)

/-! ## Claim C6 -/

/-- C6: whenever the input's field set is not exactly the required set —
missing or extra fields alike — loading fails fatally with the
field-mismatch diagnostic, and it does so before any transaction is
constructed: the outcome does not depend on the rows at all. -/
theorem c6_field_set_validation (today : Date) (fields : List String)
    (rows rows2 : List InputRow) (h : fieldSetMatches fields = false) :
    import_transactions today fields rows =
      .error "Error: Input file does not contain the correct fields." ∧
    validate_input_fields fields =
      .error "Error: Input file does not contain the correct fields." ∧
    import_transactions today fields rows = import_transactions today fields rows2 := by
  have hval : validate_input_fields fields =
      .error "Error: Input file does not contain the correct fields." := by
    unfold validate_input_fields
    rw [if_neg]
    rw [h]
    simp
  have himp : ∀ rs, import_transactions today fields rs =
      .error "Error: Input file does not contain the correct fields." := by
    intro rs
    unfold import_transactions
    rw [hval]
  exact ⟨himp rows, hval, by rw [himp rows, himp rows2]⟩

/-- Witness input row for C6: a row that would itself fail validation, to
show the field check aborts first. -/
def rowC6 : InputRow :=
  { name := "bad"
    transaction_type := "neither"
    amount_raw := "x"
    amount_val := none
    frequency := "sometimes"
    next_date_raw := "nope"
    next_date_val := none }

theorem c6_field_set_validation_witness :
    (import_transactions ⟨1, 1, 2⟩ ["name", "frequency", "next_date", "amount"]
        [rowC6] = .error "Error: Input file does not contain the correct fields." ∧
      validate_input_fields ["name", "frequency", "next_date", "amount"] =
        .error "Error: Input file does not contain the correct fields." ∧
      import_transactions ⟨1, 1, 2⟩ ["name", "frequency", "next_date", "amount"]
          [rowC6] =
        import_transactions ⟨1, 1, 2⟩ ["name", "frequency", "next_date", "amount"] []) ∧
    (import_transactions ⟨1, 1, 2⟩
        ["name", "frequency", "next_date", "amount", "transaction_type", "memo"]
        [rowC6] = .error "Error: Input file does not contain the correct fields." ∧
      validate_input_fields
          ["name", "frequency", "next_date", "amount", "transaction_type", "memo"] =
        .error "Error: Input file does not contain the correct fields." ∧
      import_transactions ⟨1, 1, 2⟩
          ["name", "frequency", "next_date", "amount", "transaction_type", "memo"]
          [rowC6] =
        import_transactions ⟨1, 1, 2⟩
          ["name", "frequency", "next_date", "amount", "transaction_type", "memo"] []) :=
  ⟨c6_field_set_validation ⟨1, 1, 2⟩ ["name", "frequency", "next_date", "amount"]
      [rowC6] [] (by decide),
   c6_field_set_validation ⟨1, 1, 2⟩
      ["name", "frequency", "next_date", "amount", "transaction_type", "memo"]
      [rowC6] [] (by decide)⟩

/-! ## Claim C7 -/

/-- C7: the frequency category resolves to exactly the fixed step mapping
(daily → +1 day, weekly → +7 days, biweekly → +14 days, monthly → +1
calendar month, quarterly → +3, semiyearly → +6, yearly → +1 calendar
year); the calendar steps clamp to month ends (Jan 31 + 1 month is
Feb 28/29); and any other category is a fatal error naming the owning
transaction. -/
theorem c7_frequency_mapping (name : String) :
    (parseFrequency name "daily" = .ok .daily ∧
     parseFrequency name "weekly" = .ok .weekly ∧
     parseFrequency name "biweekly" = .ok .biweekly ∧
     parseFrequency name "monthly" = .ok .monthly ∧
     parseFrequency name "quarterly" = .ok .quarterly ∧
     parseFrequency name "semiyearly" = .ok .semiyearly ∧
     parseFrequency name "yearly" = .ok .yearly) ∧
    (∀ d : Date, Freq.daily.step d = d.addDays 1 ∧
      Freq.weekly.step d = d.addDays 7 ∧
      Freq.biweekly.step d = d.addDays 14 ∧
      Freq.monthly.step d = d.addMonths 1 ∧
      Freq.quarterly.step d = d.addMonths 3 ∧
      Freq.semiyearly.step d = d.addMonths 6 ∧
      Freq.yearly.step d = d.addYears 1) ∧
    (Date.addMonths ⟨2025, 1, 31⟩ 1 = ⟨2025, 2, 28⟩ ∧
     Date.addMonths ⟨2024, 1, 31⟩ 1 = ⟨2024, 2, 29⟩ ∧
     Date.addYears ⟨2024, 2, 29⟩ 1 = ⟨2025, 2, 28⟩) ∧
    (∀ v, v ∉ valid_freq →
      parseFrequency name v = .error ("Invalid frequency for " ++ name ++ ".")) := by
  refine ⟨⟨rfl, rfl, rfl, rfl, rfl, rfl, rfl⟩,
    fun d => ⟨rfl, rfl, rfl, rfl, rfl, rfl, rfl⟩,
    ⟨by decide, by decide, by decide⟩, ?_⟩
  intro v hv
  unfold parseFrequency
  rw [if_pos hv]

theorem c7_frequency_mapping_witness :
    parseFrequency "Rent" "monthly" = .ok .monthly ∧
    Freq.monthly.step ⟨2025, 1, 31⟩ = Date.addMonths ⟨2025, 1, 31⟩ 1 ∧
    Date.addMonths ⟨2025, 1, 31⟩ 1 = ⟨2025, 2, 28⟩ ∧
    parseFrequency "Rent" "fortnightly" = .error "Invalid frequency for Rent." :=
  ⟨(c7_frequency_mapping "Rent").1.2.2.2.1,
   ((c7_frequency_mapping "Rent").2.1 ⟨2025, 1, 31⟩).2.2.2.1,
   (c7_frequency_mapping "Rent").2.2.1.1,
   (c7_frequency_mapping "Rent").2.2.2 "fortnightly" (by decide)⟩

/-! ## Claim C8 -/

/-- C8: for every valid input (one whose import succeeds), the ledger as
constructed — before the simulation loop starts — consists of exactly the
synthetic Opening Balance entry, dated today, with amount and balance both
the provided starting balance; and after any number of loop iterations
that entry is still the first one. -/
theorem c8_opening_entry (today : Date) (days : Nat) (startBal : Int)
    (fields : List String) (rows : List InputRow)
    (txns : List RecurringTransaction)
    (_himp : import_transactions today fields rows = .ok txns) :
    (initLedger today days startBal txns).transaction_log =
      [⟨today, "Opening Balance", startBal, startBal⟩] ∧
    ∀ n, ∃ rest,
      (run_loop n (initLedger today days startBal txns)).transaction_log =
        ⟨today, "Opening Balance", startBal, startBal⟩ :: rest := by
  refine ⟨initLedger_log today days startBal txns, ?_⟩
  intro n
  obtain ⟨ext, hext⟩ := run_loop_log_prefix n (initLedger today days startBal txns)
  rw [hext, initLedger_log]
  exact ⟨ext, rfl⟩

/-- Witness input row for C8: a monthly income due today. -/
def rowC8 : InputRow :=
  { name := "salary"
    transaction_type := "income"
    amount_raw := "10"
    amount_val := some 10
    frequency := "monthly"
    next_date_raw := "0001-01-02"
    next_date_val := some ⟨1, 1, 2⟩ }

/-- The transaction rowC8 constructs when today is 0001-01-02. -/
def txnC8 : RecurringTransaction :=
  { name := "salary"
    transaction_type := "income"
    amount := 10
    frequency := .monthly
    next_date := ⟨1, 1, 2⟩ }

theorem c8_opening_entry_witness :
    (initLedger ⟨1, 1, 2⟩ 3 250 [txnC8]).transaction_log =
      [⟨⟨1, 1, 2⟩, "Opening Balance", 250, 250⟩] ∧
    ∀ n, ∃ rest,
      (run_loop n (initLedger ⟨1, 1, 2⟩ 3 250 [txnC8])).transaction_log =
        ⟨⟨1, 1, 2⟩, "Opening Balance", 250, 250⟩ :: rest :=
  c8_opening_entry ⟨1, 1, 2⟩ 3 250 REQUIRED_INPUT_FIELDS [rowC8] [txnC8] (by rfl)

/-! ## Claim C5 -/

/-- C5: on any simulated day, the due transactions are exactly the filter
of the collection in its original insertion order; their ledger entries are
appended consecutively in that same order, and each entry carries the
running balance updated cumulatively across the earlier same-day
postings. -/
theorem c5_same_day_order (s : LedgerState) (due : List RecurringTransaction)
    (hdue : due = get_transactions_for_day s) :
    due = s.recurring_transactions.filter (is_due s.current_day) ∧
    (processDay s).transaction_log.length =
      s.transaction_log.length + due.length ∧
    ∀ i, (hi : i < due.length) →
      (processDay s).transaction_log[s.transaction_log.length + i]? =
        some ⟨s.current_day, (due.get ⟨i, hi⟩).name, (due.get ⟨i, hi⟩).amount,
          s.current_balance +
            ((due.take (i + 1)).map RecurringTransaction.amount).sum⟩ := by
  subst hdue
  have hlog : (processDay s).transaction_log = s.transaction_log ++
      postedEntries s.current_day s.current_balance (get_transactions_for_day s) := by
    rw [processDay_eq]
  refine ⟨rfl, ?_, ?_⟩
  · rw [hlog, List.length_append, postedEntries_length]
  · intro i hi
    rw [hlog, List.getElem?_append_right (by omega)]
    have hz : s.transaction_log.length + i - s.transaction_log.length = i := by
      omega
    rw [hz]
    exact postedEntries_getElem s.current_day s.current_balance _ i hi

/-- Witness transactions for C5: A then B, both due on 0001-01-03. -/
def txnA5 : RecurringTransaction :=
  { name := "A", transaction_type := "income", amount := 5,
    frequency := .daily, next_date := ⟨1, 1, 3⟩ }

def txnB5 : RecurringTransaction :=
  { name := "B", transaction_type := "expense", amount := -3,
    frequency := .weekly, next_date := ⟨1, 1, 3⟩ }

def stateC5 : LedgerState :=
  { current_day := ⟨1, 1, 3⟩
    end_day := ⟨1, 1, 5⟩
    starting_balance := 100
    current_balance := 100
    recurring_transactions := [txnA5, txnB5]
    transaction_log := [⟨⟨1, 1, 2⟩, "Opening Balance", 100, 100⟩] }

def dueC5 : List RecurringTransaction := [txnA5, txnB5]

theorem c5_same_day_order_witness :
    (processDay stateC5).transaction_log.length =
      stateC5.transaction_log.length + dueC5.length ∧
    (processDay stateC5).transaction_log[stateC5.transaction_log.length + 0]? =
      some ⟨⟨1, 1, 3⟩, "A", 5, 105⟩ ∧
    (processDay stateC5).transaction_log[stateC5.transaction_log.length + 1]? =
      some ⟨⟨1, 1, 3⟩, "B", -3, 102⟩ := by
  have h := c5_same_day_order stateC5 dueC5 (by decide)
  refine ⟨h.2.1, ?_, ?_⟩
  · have h0 := h.2.2 0 (by decide)
    rw [h0]
    rfl
  · have h1 := h.2.2 1 (by decide)
    rw [h1]
    rfl

/-! ## Claim C10 -/

/-- C10: starting from a successfully imported transaction set (with valid
parsed dates), at the start of every loop iteration each transaction's
`next_date` is on or after the current day; and a due transaction — one
whose `next_date` equals the current day — is advanced by exactly one
recurrence step, which is strictly positive, so no due date within the
horizon is passed without its occurrence posting. -/
theorem c10_no_skip (today : Date) (days : Nat) (startBal : Int)
    (fields : List String) (rows : List InputRow)
    (txns : List RecurringTransaction)
    (ht : today.Valid)
    (hrows : ∀ r ∈ rows, ∀ d, r.next_date_val = some d → d.Valid)
    (himp : import_transactions today fields rows = .ok txns) :
    (∀ k, noSkip (stepDay^[k] (initLedger today days startBal txns))) ∧
    (∀ (s : LedgerState) (t : RecurringTransaction),
      s.current_day.Valid → t.next_date = s.current_day →
      (advance_next_date t).next_date = t.frequency.step t.next_date ∧
      Date.blt t.next_date (advance_next_date t).next_date = true) := by
  constructor
  · intro k
    have hnd := import_ok_next_dates today fields rows txns ht hrows himp
    have hinit1 : datesOk (initLedger today days startBal txns) := by
      constructor
      · rw [initLedger_current_day]
        exact ht
      · intro t htm
        rw [initLedger_txns] at htm
        exact (hnd t htm).1
    have hinit2 : noSkip (initLedger today days startBal txns) := by
      intro t htm
      rw [initLedger_txns] at htm
      rw [initLedger_current_day]
      exact (hnd t htm).2
    exact (noSkip_iterate _ hinit1 hinit2 k).2
  · intro s t hcv hdue
    refine ⟨rfl, ?_⟩
    unfold advance_next_date
    dsimp only
    rw [hdue]
    exact (blt_iff_dval _ _ hcv (step_valid _ _ hcv)).mpr (dval_step _ _ hcv)

/-- Witness input row for C10: a weekly expense due today. -/
def rowC10 : InputRow :=
  { name := "gym"
    transaction_type := "expense"
    amount_raw := "5"
    amount_val := some 5
    frequency := "weekly"
    next_date_raw := "0001-01-02"
    next_date_val := some ⟨1, 1, 2⟩ }

/-- The transaction rowC10 constructs when today is 0001-01-02. -/
def txnC10 : RecurringTransaction :=
  { name := "gym"
    transaction_type := "expense"
    amount := -5
    frequency := .weekly
    next_date := ⟨1, 1, 2⟩ }

theorem c10_no_skip_witness :
    noSkip (stepDay^[1] (initLedger ⟨1, 1, 2⟩ 1 0 [txnC10])) ∧
    ((advance_next_date txnC10).next_date =
        txnC10.frequency.step txnC10.next_date ∧
      Date.blt txnC10.next_date (advance_next_date txnC10).next_date = true) := by
  have h := c10_no_skip ⟨1, 1, 2⟩ 1 0 REQUIRED_INPUT_FIELDS [rowC10] [txnC10]
    (by decide)
    (by
      intro r hr d hd
      have hre : r = rowC10 := List.mem_singleton.mp hr
      subst hre
      injection hd with hd
      rw [← hd]
      decide)
    (by rfl)
  exact ⟨h.1 1, h.2 (initLedger ⟨1, 1, 2⟩ 1 0 [txnC10]) txnC10 (by decide) (by rfl)⟩

/-! ## Claim C4 -/

theorem postedEntries_mem (cur : Date) (bal : Int)
    (ts : List RecurringTransaction) (t : RecurringTransaction) (h : t ∈ ts) :
    ∃ e, e ∈ postedEntries cur bal ts ∧ e.date = cur ∧ e.name = t.name ∧
      e.amount = t.amount := by
  induction ts generalizing bal with
  | nil => simp at h
  | cons t0 ts ih =>
      rcases List.mem_cons.mp h with he | he
      · refine ⟨⟨cur, t0.name, t0.amount, bal + t0.amount⟩, ?_, rfl, ?_, ?_⟩
        · exact List.mem_cons_self _ _
        · rw [he]
        · rw [he]
      · obtain ⟨e, hmem, hprops⟩ := ih (bal + t0.amount) he
        exact ⟨e, List.mem_cons_of_mem _ hmem, hprops⟩

/-- C4: for every horizon `days > 0` the loop terminates after exactly
`days + 1` iterations — it runs exactly while `current_day ≤ end_day`
(`end_day = today + days`), advances the current day by exactly one
calendar day per iteration, never exits early (a day with no due
transactions still consumes its iteration: the activity facts hold for
every transaction collection), surplus fuel changes nothing, the last
executed iteration processes `end_day` itself, and a transaction due
exactly on `end_day` still posts an entry. -/
theorem c4_horizon_loop (today : Date) (days : Nat) (startBal : Int)
    (txns : List RecurringTransaction) (ht : today.Valid) (_hdays : 0 < days) :
    (initLedger today days startBal txns).end_day = today.addDays days ∧
    (∀ k, k ≤ days →
      (stepDay^[k] (initLedger today days startBal txns)).current_day =
        today.addDays k ∧
      is_active (stepDay^[k] (initLedger today days startBal txns)) = true) ∧
    is_active (stepDay^[days + 1] (initLedger today days startBal txns)) = false ∧
    run_loop (days + 1) (initLedger today days startBal txns) =
      stepDay^[days + 1] (initLedger today days startBal txns) ∧
    (∀ m, run_loop (days + 1 + m) (initLedger today days startBal txns) =
      run_loop (days + 1) (initLedger today days startBal txns)) ∧
    (stepDay^[days] (initLedger today days startBal txns)).current_day =
      (initLedger today days startBal txns).end_day ∧
    (∀ t, t ∈ (stepDay^[days]
        (initLedger today days startBal txns)).recurring_transactions →
      t.next_date = (initLedger today days startBal txns).end_day →
      ∃ e, e ∈ (run_loop (days + 1)
          (initLedger today days startBal txns)).transaction_log ∧
        e.date = (initLedger today days startBal txns).end_day ∧
        e.name = t.name ∧ e.amount = t.amount) := by
  have hacts : ∀ j, j < days + 1 →
      is_active (stepDay^[j] (initLedger today days startBal txns)) = true :=
    fun j hj => active_iterate today days startBal txns ht j (by omega)
  have hrun : run_loop (days + 1) (initLedger today days startBal txns) =
      stepDay^[days + 1] (initLedger today days startBal txns) :=
    run_loop_eq_iterate (days + 1) _ hacts
  have hboundary : (stepDay^[days]
      (initLedger today days startBal txns)).current_day =
      (initLedger today days startBal txns).end_day := by
    rw [stepDay_iterate_current_day, initLedger_current_day, initLedger_end_day]
  refine ⟨initLedger_end_day today days startBal txns, ?_,
    inactive_final today days startBal txns ht, hrun, ?_, hboundary, ?_⟩
  · intro k hk
    refine ⟨?_, active_iterate today days startBal txns ht k hk⟩
    rw [stepDay_iterate_current_day, initLedger_current_day]
  · intro m
    rw [run_loop_add (days + 1) m _ hacts,
      run_loop_inactive m _ (inactive_final today days startBal txns ht), hrun]
  · intro t htm htd
    have hstep : run_loop (days + 1) (initLedger today days startBal txns) =
        stepDay (stepDay^[days] (initLedger today days startBal txns)) := by
      rw [hrun, Function.iterate_succ_apply']
    have hdue : t ∈ get_transactions_for_day
        (stepDay^[days] (initLedger today days startBal txns)) := by
      unfold get_transactions_for_day
      apply List.mem_filter.mpr
      refine ⟨htm, ?_⟩
      unfold is_due
      rw [htd, hboundary]
      exact beq_self_eq_true _
    obtain ⟨e, hmem, he1, he2, he3⟩ := postedEntries_mem
      (stepDay^[days] (initLedger today days startBal txns)).current_day
      (stepDay^[days] (initLedger today days startBal txns)).current_balance
      _ t hdue
    refine ⟨e, ?_, by rw [he1, hboundary], he2, he3⟩
    rw [hstep, stepDay_log]
    exact List.mem_append_right _ hmem

/-- Witness transaction for C4: a daily income due exactly on the end day
of a 1-day horizon starting 0001-01-02. -/
def txnC4 : RecurringTransaction :=
  { name := "boundary"
    transaction_type := "income"
    amount := 2
    frequency := .daily
    next_date := ⟨1, 1, 3⟩ }

theorem c4_horizon_loop_witness :
    (initLedger ⟨1, 1, 2⟩ 1 0 [txnC4]).end_day = Date.addDays ⟨1, 1, 2⟩ 1 ∧
    (stepDay^[1] (initLedger ⟨1, 1, 2⟩ 1 0 [txnC4])).current_day =
      Date.addDays ⟨1, 1, 2⟩ 1 ∧
    is_active (stepDay^[1] (initLedger ⟨1, 1, 2⟩ 1 0 [txnC4])) = true ∧
    is_active (stepDay^[2] (initLedger ⟨1, 1, 2⟩ 1 0 [txnC4])) = false ∧
    run_loop 2 (initLedger ⟨1, 1, 2⟩ 1 0 [txnC4]) =
      stepDay^[2] (initLedger ⟨1, 1, 2⟩ 1 0 [txnC4]) ∧
    run_loop 4 (initLedger ⟨1, 1, 2⟩ 1 0 [txnC4]) =
      run_loop 2 (initLedger ⟨1, 1, 2⟩ 1 0 [txnC4]) ∧
    (stepDay^[1] (initLedger ⟨1, 1, 2⟩ 1 0 [txnC4])).current_day =
      (initLedger ⟨1, 1, 2⟩ 1 0 [txnC4]).end_day ∧
    (∃ e, e ∈ (run_loop 2 (initLedger ⟨1, 1, 2⟩ 1 0 [txnC4])).transaction_log ∧
      e.date = (initLedger ⟨1, 1, 2⟩ 1 0 [txnC4]).end_day ∧
      e.name = txnC4.name ∧ e.amount = txnC4.amount) := by
  have h := c4_horizon_loop ⟨1, 1, 2⟩ 1 0 [txnC4] (by decide) (by decide)
  exact ⟨h.1, (h.2.1 1 (by omega)).1, (h.2.1 1 (by omega)).2, h.2.2.1,
    h.2.2.2.1, h.2.2.2.2.1 2, h.2.2.2.2.2.1,
    h.2.2.2.2.2.2 txnC4 (by decide) (by decide)⟩
